import Mathlib

/-!
# Verification development for `src/bot.js`

A shallow embedding of the `messageCreate` handler of the music bot, of the
two resolver functions `buscarConYtdlp` and `obtenerTituloDesdeSpotify`, and of
the process-wide `searchCache`.

External collaborators (the playback engine `distube`, the subprocess run by
`exec`, the HTTP client `axios`) are parameters of the handler, collected in
`Env`. Every observable action of the handler is recorded, in program order,
in a list of `Event`s.

JavaScript strings are embedded as Lean strings; the string primitives that
the source uses (`split`, `join`, `trim`, `includes`) are defined on the
underlying character lists by structural recursion.
-/

namespace Bot

/-! ## JavaScript string primitives -/

/-- Characters removed by `String.prototype.trim`: the ECMAScript `WhiteSpace`
and `LineTerminator` code points. -/
def jsIsWhitespace (c : Char) : Bool :=
  c.toNat = 0x09 || c.toNat = 0x0A || c.toNat = 0x0B || c.toNat = 0x0C ||
  c.toNat = 0x0D || c.toNat = 0x20 || c.toNat = 0xA0 || c.toNat = 0x1680 ||
  (0x2000 ≤ c.toNat && c.toNat ≤ 0x200A) ||
  c.toNat = 0x2028 || c.toNat = 0x2029 || c.toNat = 0x202F ||
  c.toNat = 0x205F || c.toNat = 0x3000 || c.toNat = 0xFEFF

/-- Drop the leading white space of a character list. -/
def trimStartChars : List Char → List Char
  | [] => []
  | c :: cs => if jsIsWhitespace c then trimStartChars cs else c :: cs

/-- Character-list form of `trim`: white space removed at both ends. -/
def trimChars (cs : List Char) : List Char :=
  (trimStartChars (trimStartChars cs).reverse).reverse

/-- The method `s.trim()`. -/
def jsTrim (s : String) : String := ⟨trimChars s.data⟩

/-- Does `cs` start with `p`? -/
def startsWithChars : List Char → List Char → Bool
  | [], _ => true
  | _ :: _, [] => false
  | p :: ps, c :: cs => p == c && startsWithChars ps cs

/-- Character-list form of `includes`. -/
def includesChars (sub : List Char) : List Char → Bool
  | [] => startsWithChars sub []
  | c :: cs => startsWithChars sub (c :: cs) || includesChars sub cs

/-- The method `s.includes(sub)`. -/
def jsIncludes (s sub : String) : Bool := includesChars sub.data s.data

/-- Worker of `split` for a non-empty separator. `cur` is the piece being
read (reversed), `skip` the number of characters of a separator occurrence
that are still to be passed over. Occurrences are taken leftmost first and do
not overlap. -/
def splitGo (sep : List Char) : List Char → Nat → List Char → List (List Char)
  | cur, _, [] => [cur.reverse]
  | cur, skip + 1, _ :: cs => splitGo sep cur skip cs
  | cur, 0, c :: cs =>
    if startsWithChars sep (c :: cs) then
      cur.reverse :: splitGo sep [] (sep.length - 1) cs
    else
      splitGo sep (c :: cur) 0 cs

/-- Character-list form of `split` for a non-empty separator. -/
def splitChars (sep : List Char) (cs : List Char) : List (List Char) :=
  splitGo sep [] 0 cs

/-- The method `s.split(sep)` for a non-empty separator `sep` (the source
only splits on the literals `' '`, `"|"`, `"track/"` and `"?"`). -/
def jsSplit (s sep : String) : List String :=
  (splitChars sep.data s.data).map String.mk

/-- The method `parts.join(sep)`. -/
def jsJoin : List String → String → String
  | [], _ => ""
  | [a], _ => a
  | a :: b :: rest, sep => a ++ sep ++ jsJoin (b :: rest) sep

/-- The method `xs.map((x, id) => f(x, id))`, with the index starting at
`start`. -/
def jsMapIdxFrom {α β : Type} (f : α → Nat → β) : Nat → List α → List β
  | _, [] => []
  | start, x :: xs => f x start :: jsMapIdxFrom f (start + 1) xs

/-- The method `xs.map((x, id) => f(x, id))`. -/
def jsMapIdx {α β : Type} (f : α → Nat → β) (xs : List α) : List β :=
  jsMapIdxFrom f 0 xs

/-- Truthiness of a string value: only the empty string is falsy. -/
def truthy (s : String) : Bool := s != ""

/-- Truthiness of a value that is a string or `undefined`/`null`. -/
def truthyOpt : Option String → Bool
  | none => false
  | some s => truthy s

/-- Rendering of a string-or-`undefined` value inside a template literal. -/
def jsToString : Option String → String
  | none => "undefined"
  | some s => s

/-! ## Data model -/

/-- The object `{ title, url }` resolved by `buscarConYtdlp`. Both fields come
from an array destructuring, so either may be `undefined`. -/
structure Track where
  title : Option String
  url : Option String
  deriving DecidableEq

/-- The `searchCache` map, as an association list in insertion order. -/
abbrev Cache := List (String × Track)

/-- The method `searchCache.has(key)`. -/
def cacheHas : Cache → String → Bool
  | [], _ => false
  | (k, _) :: rest, key => k == key || cacheHas rest key

/-- The method `searchCache.get(key)`. -/
def cacheGet : Cache → String → Option Track
  | [], _ => none
  | (k, v) :: rest, key => if k == key then some v else cacheGet rest key

/-- The method `searchCache.set(key, value)`: an existing key keeps its place
and takes the new value, a new key is appended. -/
def cacheSet : Cache → String → Track → Cache
  | [], key, value => [(key, value)]
  | (k, v) :: rest, key, value =>
    if k == key then (k, value) :: rest else (k, v) :: cacheSet rest key value

/-- A song of a playback queue, as far as the handler reads it. -/
structure Song where
  name : String
  formattedDuration : String
  deriving DecidableEq

/-- An inbound message, as far as the handler reads it. -/
structure Message where
  /-- The field `message.guild`: the guild id, or `none` outside a guild. -/
  guild : Option String
  /-- The field `message.author.bot`. -/
  authorBot : Bool
  /-- The field `message.content`. -/
  content : String
  /-- The field `message.member.voice.channel`. -/
  voiceChannel : Option String
  deriving DecidableEq

/-- Outcome of the subprocess started by `exec`, as passed to its callback. -/
structure ExecResult where
  /-- Is `err` set (spawn failure or non-zero exit)? -/
  err : Bool
  stdout : String
  deriving DecidableEq

/-- Outcome of `axios.get`. -/
inductive HttpResult where
  /-- The request rejects, or the response carries no `data` object. -/
  | failed
  /-- The response carries a `data` object whose `title` is the given string,
  or has no `title`. -/
  | body (title : Option String)
  deriving DecidableEq

/-- The external collaborators during one run of the handler. -/
structure Env where
  /-- Does `distube.voices.join` resolve (rather than throw)? -/
  joinOk : Bool
  /-- Does the `n`-th call of `distube.play` in this run (counting from 0),
  made with the given song argument, resolve (rather than throw)? -/
  playOk : Nat → Option String → Bool
  /-- The subprocess run for a command line. -/
  exec : String → ExecResult
  /-- The HTTP GET of a URL. -/
  axiosGet : String → HttpResult
  /-- The result of `distube.getQueue(guildId)`: the songs of the queue. -/
  getQueue : String → Option (List Song)
  /-- Is `distube.voices.get(guild)` a connection? -/
  connection : String → Bool

/-- The three call sites of `distube.play` in the handler. -/
inductive PlaySite where
  /-- Line 78: playing the url of a cache hit. -/
  | cached
  /-- Line 86: playing the query itself. -/
  | primary
  /-- Line 102: playing the url found by `buscarConYtdlp`. -/
  | fallback
  deriving DecidableEq

/-- Observable actions of the handler. Console logging is not recorded. -/
inductive Event where
  | reply (text : String)
  | voicesJoin (channel : String)
  | play (site : PlaySite) (channel : String) (song : Option String)
  | cacheHas (key : String)
  | cacheGet (key : String)
  | cacheSet (key : String) (value : Track)
  | exec (command : String)
  | axiosGet (url : String)
  | getQueue (guildId : String)
  | queueSkip
  | queueStop
  | voicesGet (guildId : String)
  | connectionLeave
  deriving DecidableEq

/-- Is the event a call into the playback engine? -/
def Event.isEngineCall : Event → Bool
  | .voicesJoin _ => true
  | .play _ _ _ => true
  | .getQueue _ => true
  | .queueSkip => true
  | .queueStop => true
  | .voicesGet _ => true
  | .connectionLeave => true
  | _ => false

/-- Is the event a call of `distube.play`? -/
def Event.isPlay : Event → Bool
  | .play _ _ _ => true
  | _ => false

/-- Is the event a read or write of the search cache? -/
def Event.isCacheAccess : Event → Bool
  | .cacheHas _ => true
  | .cacheGet _ => true
  | .cacheSet _ _ => true
  | _ => false

/-- State threaded through the handler: the cache and the events so far. -/
structure St where
  cache : Cache
  trace : List Event
  deriving DecidableEq

/-- Record an event. -/
def St.emit (s : St) (e : Event) : St := { s with trace := s.trace ++ [e] }

/-- Control after a block of the handler: `ret` when the handler has executed
a `return`, `next` when it goes on to the statement after the block. -/
inductive Ctl where
  | ret (s : St)
  | next (s : St)
  deriving DecidableEq

/-- The state carried by a control value. -/
def Ctl.st : Ctl → St
  | .ret s => s
  | .next s => s

/-- Sequencing of blocks: a `return` skips the rest. -/
def Ctl.andThen (c : Ctl) (k : St → Ctl) : Ctl :=
  match c with
  | .ret s => .ret s
  | .next s => k s

/-! ## Reply texts -/

/-- Reply of lines 43 and 58. -/
def msgNeedVoice : String := "❌ Debes estar en un canal de voz."
/-- Reply of line 48. -/
def msgJoined : String := "✅ Me uní al canal de voz."
/-- Reply of line 51. -/
def msgJoinFailed : String := "❌ No pude unirme al canal de voz."
/-- Reply of line 61. -/
def msgNeedQuery : String := "❌ Debes proporcionar una canción o URL."
/-- Reply of line 71. -/
def msgSpotifyFailed : String := "❌ No pude obtener la canción desde Spotify."
/-- Reply of line 82. -/
def msgCached (title : Option String) : String :=
  "🎶 Reproduciendo (caché): **" ++ jsToString title ++ "**"
/-- Reply of line 96. -/
def msgNotFound : String := "❌ No pude encontrar la canción."
/-- Reply of line 108. -/
def msgPlayError : String := "❌ Error al intentar reproducir la canción."
/-- Reply of line 118. -/
def msgNoMoreSongs : String := "❌ No hay más canciones en la cola."
/-- Reply of line 121. -/
def msgSkipped : String := "⏭ Saltado."
/-- Reply of line 128. -/
def msgNothingPlaying : String := "❌ No hay música reproduciéndose."
/-- Reply of line 131. -/
def msgStopped : String := "🛑 Música detenida y cola vaciada."
/-- Reply of line 138. -/
def msgNoQueue : String := "❌ No hay canciones en la cola."
/-- First line of the reply of line 141, with its line break. -/
def msgQueueHeader : String := "🎶 **Cola:**\n"
/-- Reply of line 153. -/
def msgNotConnected : String := "❌ No estoy en un canal de voz."
/-- Reply of line 156. -/
def msgBye : String := "👋 Adiós."

/-! ## The resolver functions -/

/-- The command line built on line 163. -/
def ytdlpCommand (query : String) : String :=
  "yt-dlp \"ytsearch1:" ++ query ++ "\" --print \"%(title)s|%(webpage_url)s\""

/-- The callback of `exec` on lines 164-171: from the outcome of the
subprocess to the value the promise resolves to (`none` for `null`). -/
def parseYtdlp (r : ExecResult) : Option Track :=
  if r.err || !truthy (jsTrim r.stdout) then none
  else
    let parts := jsSplit (jsTrim r.stdout) "|"
    some { title := parts[0]?, url := parts[1]? }

/-- The function `buscarConYtdlp`: the value its promise resolves to. -/
def buscarConYtdlp (env : Env) (query : String) : Option Track :=
  parseYtdlp (env.exec (ytdlpCommand query))

/-- The lookup address built on line 180. -/
def spotifyApiUrl (trackId : String) : String :=
  "https://open.spotify.com/oembed?url=https://open.spotify.com/track/" ++ trackId

/-- The expression `url.split("track/")[1].split("?")[0]` of line 179; `none`
when it throws because `url.split("track/")[1]` is `undefined`. -/
def spotifyTrackId (url : String) : Option String :=
  match (jsSplit url "track/")[1]? with
  | none => none
  | some rest => (jsSplit rest "?")[0]?

/-- The function `obtenerTituloDesdeSpotify`: the value it returns (`none` for
`null` and for `undefined`) and the requests it makes. -/
def obtenerTituloDesdeSpotify (env : Env) (url : String) : Option String × List Event :=
  match spotifyTrackId url with
  | none => (none, [])
  | some trackId =>
    match env.axiosGet (spotifyApiUrl trackId) with
    | .failed => (none, [.axiosGet (spotifyApiUrl trackId)])
    | .body title => (title, [.axiosGet (spotifyApiUrl trackId)])

/-! ## The `messageCreate` handler -/

/-- The array `args` of line 38. -/
def parseArgs (content : String) : List String := jsSplit content " "

/-- The value `query` of line 64. -/
def rawQuery (args : List String) : String := jsJoin (args.drop 1) " "

/-- Lines 41-53, the `!join` block. -/
def joinBlock (env : Env) (m : Message) (args : List String) (s : St) : Ctl :=
  if args[0]? = some "!join" then
    match m.voiceChannel with
    | none => .ret (s.emit (.reply msgNeedVoice))
    | some ch =>
      let s := s.emit (.voicesJoin ch)
      if env.joinOk then .next (s.emit (.reply msgJoined))
      else .next (s.emit (.reply msgJoinFailed))
  else .next s

/-- Lines 90-111, the `catch` block of `!play` together with the callback it
registers on the fallback search. The callback is not awaited by the handler;
nothing else of this run of the handler acts after the `catch` block, so its
events are recorded in place. The call of `distube.play` in the callback is
the second of the run. -/
def playCatch (env : Env) (ch : String) (query : String) (s : St) : Ctl :=
  let s := s.emit (.exec (ytdlpCommand query))
  match buscarConYtdlp env query with
  | none => .next (s.emit (.reply msgNotFound))
  | some result =>
    if !truthyOpt result.url then .next (s.emit (.reply msgNotFound))
    else
      let s : St := { cache := cacheSet s.cache query result,
                      trace := s.trace ++ [.cacheSet query result] }
      let s := s.emit (.play .fallback ch result.url)
      if env.playOk 1 result.url then .next s
      else .next (s.emit (.reply msgPlayError))

/-- Lines 75-89, the `try` block of `!play` from the cache lookup on, with
the `catch` block where a call of `distube.play` throws (or where reading
`cachedSong.url` would throw because `get` gave `undefined`). -/
def playResolved (env : Env) (ch : String) (query : String) (s : St) : Ctl :=
  let s := s.emit (.cacheHas query)
  if cacheHas s.cache query then
    let s := s.emit (.cacheGet query)
    match cacheGet s.cache query with
    | none => playCatch env ch query s
    | some cachedSong =>
      let s := s.emit (.play .cached ch cachedSong.url)
      if env.playOk 0 cachedSong.url then .ret (s.emit (.reply (msgCached cachedSong.title)))
      else playCatch env ch query s
  else
    let s := s.emit (.play .primary ch (some query))
    if env.playOk 0 (some query) then .next s
    else playCatch env ch query s

/-- Lines 56-112, the `!play` block. -/
def playBlock (env : Env) (m : Message) (args : List String) (s : St) : Ctl :=
  if args[0]? = some "!play" then
    match m.voiceChannel with
    | none => .ret (s.emit (.reply msgNeedVoice))
    | some ch =>
      if !truthyOpt args[1]? then .ret (s.emit (.reply msgNeedQuery))
      else
        let query := rawQuery args
        if jsIncludes query "spotify.com" then
          let r := obtenerTituloDesdeSpotify env query
          let s : St := { s with trace := s.trace ++ r.2 }
          match r.1 with
          | none => .ret (s.emit (.reply msgSpotifyFailed))
          | some title =>
            if !truthy title then .ret (s.emit (.reply msgSpotifyFailed))
            else playResolved env ch title s
        else playResolved env ch query s
  else .next s

/-- Lines 115-122, the `!skip` block. -/
def skipBlock (env : Env) (guildId : String) (args : List String) (s : St) : Ctl :=
  if args[0]? = some "!skip" then
    let s := s.emit (.getQueue guildId)
    match env.getQueue guildId with
    | none => .ret (s.emit (.reply msgNoMoreSongs))
    | some songs =>
      if songs.length ≤ 1 then .ret (s.emit (.reply msgNoMoreSongs))
      else .next ((s.emit .queueSkip).emit (.reply msgSkipped))
  else .next s

/-- Lines 125-132, the `!stop` block. -/
def stopBlock (env : Env) (guildId : String) (args : List String) (s : St) : Ctl :=
  if args[0]? = some "!stop" then
    let s := s.emit (.getQueue guildId)
    match env.getQueue guildId with
    | none => .ret (s.emit (.reply msgNothingPlaying))
    | some _ => .next ((s.emit .queueStop).emit (.reply msgStopped))
  else .next s

/-- The template literal of line 144. -/
def queueLine (song : Song) (id : Nat) : String :=
  "**" ++ toString (id + 1) ++ "**. " ++ song.name ++ " `[" ++ song.formattedDuration ++ "]`"

/-- The argument of `message.reply` on lines 142-145. -/
def queueText (songs : List Song) : String :=
  msgQueueHeader ++ jsJoin (jsMapIdx queueLine songs) "\n"

/-- Lines 135-147, the `!queue` block. -/
def queueBlock (env : Env) (guildId : String) (args : List String) (s : St) : Ctl :=
  if args[0]? = some "!queue" then
    let s := s.emit (.getQueue guildId)
    match env.getQueue guildId with
    | none => .ret (s.emit (.reply msgNoQueue))
    | some songs => .next (s.emit (.reply (queueText songs)))
  else .next s

/-- Lines 150-157, the `!leave` block. -/
def leaveBlock (env : Env) (guildId : String) (args : List String) (s : St) : Ctl :=
  if args[0]? = some "!leave" then
    let s := s.emit (.voicesGet guildId)
    if !env.connection guildId then .ret (s.emit (.reply msgNotConnected))
    else .next ((s.emit .connectionLeave).emit (.reply msgBye))
  else .next s

/-- Lines 36-158, the handler of `messageCreate`: the cache after the run and
the events of the run, from the cache before it. -/
def handleMessage (env : Env) (cache : Cache) (m : Message) : St :=
  match m.guild with
  | none => { cache := cache, trace := [] }
  | some guildId =>
    if m.authorBot then { cache := cache, trace := [] }
    else
      let args := parseArgs m.content
      (((((joinBlock env m args { cache := cache, trace := [] }).andThen
        (playBlock env m args)).andThen
        (skipBlock env guildId args)).andThen
        (stopBlock env guildId args)).andThen
        (queueBlock env guildId args)).andThen
        (leaveBlock env guildId args) |>.st

/-- The handler run on a sequence of messages, each with its own environment,
one after the other: the final cache and all events in order. -/
def runMessages : List (Env × Message) → St → St
  | [], s => s
  | (env, m) :: rest, s =>
    let r := handleMessage env s.cache m
    runMessages rest { cache := r.cache, trace := s.trace ++ r.trace }

/-! ## Predicates used to state the properties -/

/-- The requests made on lines 68-73 before the cache lookup of line 76. -/
def lookupEvents (env : Env) (m : Message) : List Event :=
  if jsIncludes (rawQuery (parseArgs m.content)) "spotify.com" then
    (obtenerTituloDesdeSpotify env (rawQuery (parseArgs m.content))).2
  else []

/-- The message `m` is a handled `!play` command from a caller in voice
channel `ch`, with an argument, and the value of `query` when line 76 is
reached is `q`: the text after the command, or the title that
`obtenerTituloDesdeSpotify` returned for it when it contains `spotify.com`. -/
def PlayCommand (env : Env) (m : Message) (ch q : String) : Prop :=
  m.guild.isSome = true ∧ m.authorBot = false ∧
  (parseArgs m.content)[0]? = some "!play" ∧
  m.voiceChannel = some ch ∧
  truthyOpt (parseArgs m.content)[1]? = true ∧
  (if jsIncludes (rawQuery (parseArgs m.content)) "spotify.com" then
    (obtenerTituloDesdeSpotify env (rawQuery (parseArgs m.content))).1 = some q ∧
      truthy q = true
   else rawQuery (parseArgs m.content) = q)

/-- The texts of the replies among the events, in order. -/
def repliesOf : List Event → List String
  | [] => []
  | .reply text :: rest => text :: repliesOf rest
  | _ :: rest => repliesOf rest

/-- Is the event the start of the fallback search subprocess? -/
def Event.isSearch : Event → Bool
  | .exec _ => true
  | _ => false

/-- Every entry of the cache has a url that is present and not empty. -/
def CacheWf (c : Cache) : Prop :=
  ∀ k t, (k, t) ∈ c → ∃ u, t.url = some u ∧ u ≠ ""

/-- The metadata lookup of `obtenerTituloDesdeSpotify` fails for `url`: the
url has no `track/` segment, or the request fails, or the response has no
title, or an empty one. -/
def SpotifyLookupFails (env : Env) (url : String) : Prop :=
  match spotifyTrackId url with
  | none => True
  | some trackId =>
    env.axiosGet (spotifyApiUrl trackId) = .failed ∨
    env.axiosGet (spotifyApiUrl trackId) = .body none ∨
    env.axiosGet (spotifyApiUrl trackId) = .body (some "")

/-! ## Sample inputs -/

/-- An environment in which the first call of `distube.play` throws, later
calls resolve, and the search tool prints `T|U`. -/
def envFallbackFinds : Env where
  joinOk := true
  playOk := fun n _ => n != 0
  exec := fun _ => { err := false, stdout := "T|U\n" }
  axiosGet := fun _ => .failed
  getQueue := fun _ => none
  connection := fun _ => false

/-- An environment in which every call of `distube.play` throws and the
search tool exits with an error. -/
def envAllFail : Env where
  joinOk := false
  playOk := fun _ _ => false
  exec := fun _ => { err := true, stdout := "" }
  axiosGet := fun _ => .failed
  getQueue := fun _ => none
  connection := fun _ => false

/-- An environment in which every call resolves and the guild has a queue of
two songs. -/
def envAllOk : Env where
  joinOk := true
  playOk := fun _ _ => true
  exec := fun _ => { err := false, stdout := "T|U\n" }
  axiosGet := fun _ => .body (some "Song Title")
  getQueue := fun _ => some [{ name := "a", formattedDuration := "1:00" },
                             { name := "b", formattedDuration := "2:00" }]
  connection := fun _ => true

/-- A message of a user of guild `g` sitting in voice channel `c`. -/
def msgInVoice (content : String) : Message :=
  { guild := some "g", authorBot := false, content := content, voiceChannel := some "c" }

/-- A message of a user of guild `g` who is in no voice channel. -/
def msgNoVoice (content : String) : Message :=
  { guild := some "g", authorBot := false, content := content, voiceChannel := none }

/-- An environment in which the first call of `distube.play` throws, later
calls resolve, and the search tool prints `T2|U2`. -/
def envCachedUrlThrows : Env where
  joinOk := true
  playOk := fun n _ => n != 0
  exec := fun _ => { err := false, stdout := "T2|U2\n" }
  axiosGet := fun _ => .failed
  getQueue := fun _ => none
  connection := fun _ => false

/-- A cache holding one entry, for the query `x y`. -/
def cacheOne : Cache := [("x y", { title := some "T", url := some "U" })]

/-- Does some reply among the events contain the cache marker? -/
def hasCachedReply : List Event → Bool
  | [] => false
  | .reply text :: rest => jsIncludes text "(caché)" || hasCachedReply rest
  | _ :: rest => hasCachedReply rest

/-- An environment whose search tool finds a video titled `A|B` at
`https://youtu.be/x` and prints the line `A|B|https://youtu.be/x`. -/
def envTitleWithBar : Env where
  joinOk := true
  playOk := fun n _ => n != 0
  exec := fun _ => { err := false, stdout := "A|B|https://youtu.be/x\n" }
  axiosGet := fun _ => .failed
  getQueue := fun _ => none
  connection := fun _ => false

/-- An environment whose guild has a queue of one song. -/
def envOneSong : Env where
  joinOk := true
  playOk := fun _ _ => true
  exec := fun _ => { err := true, stdout := "" }
  axiosGet := fun _ => .failed
  getQueue := fun _ => some [{ name := "a", formattedDuration := "1:00" }]
  connection := fun _ => true

/-- Character-list form of `join`. -/
def joinChars : List (List Char) → List Char → List Char
  | [], _ => []
  | [a], _ => a
  | a :: b :: rest, sep => a ++ sep ++ joinChars (b :: rest) sep

/-- No event of the list is a call of `distube.play` from the cache branch. -/
def NoCachedPlay (l : List Event) : Prop :=
  ∀ ch a, Event.play .cached ch a ∉ l

/-- A block that leaves the cache alone and plays nothing from the cache. -/
def Inert (k : St → Ctl) : Prop :=
  ∀ s, (k s).st.cache = s.cache ∧ (NoCachedPlay s.trace → NoCachedPlay (k s).st.trace)

/-- The run of the handler changed the cache through the store of line 100:
the message is a `!play` command, the fallback search for some query `q`
resolved to a track `t` with a url, and the cache after the run is the cache
before it with `q` set to `t`. -/
def StoredByFallback (env : Env) (cache : Cache) (m : Message) : Prop :=
  (parseArgs m.content)[0]? = some "!play" ∧
  ∃ q t, (handleMessage env cache m).cache = cacheSet cache q t ∧
    buscarConYtdlp env q = some t ∧ truthyOpt t.url = true ∧
    Event.exec (ytdlpCommand q) ∈ (handleMessage env cache m).trace ∧
    Event.cacheSet q t ∈ (handleMessage env cache m).trace

end Bot

namespace Bot

/-! ## Control-flow lemmas -/

theorem Ctl.andThen_ret (s : St) (k : St → Ctl) : (Ctl.ret s).andThen k = .ret s := rfl

theorem Ctl.andThen_next (s : St) (k : St → Ctl) : (Ctl.next s).andThen k = k s := rfl

theorem joinBlock_other (env : Env) (m : Message) (args : List String) (s : St)
    (h : args[0]? ≠ some "!join") : joinBlock env m args s = .next s := by
  simp [joinBlock, h]

theorem playBlock_other (env : Env) (m : Message) (args : List String) (s : St)
    (h : args[0]? ≠ some "!play") : playBlock env m args s = .next s := by
  simp [playBlock, h]

theorem skipBlock_other (env : Env) (g : String) (args : List String) (s : St)
    (h : args[0]? ≠ some "!skip") : skipBlock env g args s = .next s := by
  simp [skipBlock, h]

theorem stopBlock_other (env : Env) (g : String) (args : List String) (s : St)
    (h : args[0]? ≠ some "!stop") : stopBlock env g args s = .next s := by
  simp [stopBlock, h]

theorem queueBlock_other (env : Env) (g : String) (args : List String) (s : St)
    (h : args[0]? ≠ some "!queue") : queueBlock env g args s = .next s := by
  simp [queueBlock, h]

theorem leaveBlock_other (env : Env) (g : String) (args : List String) (s : St)
    (h : args[0]? ≠ some "!leave") : leaveBlock env g args s = .next s := by
  simp [leaveBlock, h]

/-- After the `!play` block, the four remaining blocks do nothing on a
`!play` message. -/
theorem after_play (env : Env) (g : String) (args : List String) (c : Ctl)
    (h : args[0]? = some "!play") :
    ((((c.andThen (skipBlock env g args)).andThen (stopBlock env g args)).andThen
      (queueBlock env g args)).andThen (leaveBlock env g args)).st = c.st := by
  cases c with
  | ret s => rfl
  | next s =>
    rw [Ctl.andThen_next, skipBlock_other _ _ _ _ (by simp [h]), Ctl.andThen_next,
      stopBlock_other _ _ _ _ (by simp [h]), Ctl.andThen_next,
      queueBlock_other _ _ _ _ (by simp [h]), Ctl.andThen_next,
      leaveBlock_other _ _ _ _ (by simp [h])]

/-- A handled `!play` message runs the `!play` block and nothing else. -/
theorem handle_play (env : Env) (cache : Cache) (m : Message) (g : String)
    (hg : m.guild = some g) (hb : m.authorBot = false)
    (h : (parseArgs m.content)[0]? = some "!play") :
    handleMessage env cache m =
      (playBlock env m (parseArgs m.content) { cache := cache, trace := [] }).st := by
  unfold handleMessage
  simp only [hg, hb, Bool.false_eq_true, if_false]
  rw [joinBlock_other _ _ _ _ (by simp [h]), Ctl.andThen_next]
  exact after_play env g _ _ h

/-- From the cache lookup on, a `!play` command is `playResolved`. -/
theorem handle_playCommand (env : Env) (cache : Cache) (m : Message) (ch q : String)
    (h : PlayCommand env m ch q) :
    handleMessage env cache m =
      (playResolved env ch q { cache := cache, trace := lookupEvents env m }).st := by
  obtain ⟨hg, hb, h0, hv, h1, hq⟩ := h
  obtain ⟨g, hg⟩ := Option.isSome_iff_exists.mp hg
  rw [handle_play env cache m g hg hb h0]
  unfold playBlock lookupEvents
  by_cases hs : jsIncludes (rawQuery (parseArgs m.content)) "spotify.com" = true
  · rw [if_pos hs] at hq
    obtain ⟨hq1, hq2⟩ := hq
    simp [h0, hv, h1, hs, hq1, hq2]
  · rw [if_neg hs] at hq
    simp only [Bool.not_eq_true] at hs
    simp only [hq] at hs ⊢
    simp [h0, hv, h1, hs]

theorem cacheGet_cacheSet (c : Cache) (k : String) (v : Track) :
    cacheGet (cacheSet c k v) k = some v := by
  induction c with
  | nil => simp [cacheSet, cacheGet]
  | cons p rest ih =>
    obtain ⟨k0, v0⟩ := p
    by_cases hk : (k0 == k) = true
    · simp [cacheSet, cacheGet, hk]
    · simp [cacheSet, cacheGet, hk, ih]

theorem cacheHas_of_cacheGet (c : Cache) (k : String) (v : Track)
    (h : cacheGet c k = some v) : cacheHas c k = true := by
  induction c with
  | nil => simp [cacheGet] at h
  | cons p rest ih =>
    obtain ⟨k0, v0⟩ := p
    by_cases hk : (k0 == k) = true
    · simp [cacheHas, hk]
    · simp [cacheGet, hk] at h
      simp [cacheHas, ih h]

theorem mem_of_cacheGet (c : Cache) (k : String) (v : Track)
    (h : cacheGet c k = some v) : (k, v) ∈ c := by
  induction c with
  | nil => simp [cacheGet] at h
  | cons p rest ih =>
    obtain ⟨k0, v0⟩ := p
    by_cases hk : k0 = k
    · simp [cacheGet, hk] at h
      simp [hk, h]
    · simp [cacheGet, hk] at h
      simp [ih h]

theorem cacheGet_of_cacheHas (c : Cache) (k : String)
    (h : cacheHas c k = true) : ∃ v, cacheGet c k = some v := by
  induction c with
  | nil => simp [cacheHas] at h
  | cons p rest ih =>
    obtain ⟨k0, v0⟩ := p
    by_cases hk : k0 = k
    · exact ⟨v0, by simp [cacheGet, hk]⟩
    · simp [cacheHas, hk] at h
      obtain ⟨v, hv⟩ := ih h
      exact ⟨v, by simp [cacheGet, hk, hv]⟩

theorem mem_cacheSet (c : Cache) (k : String) (v : Track) (p : String × Track)
    (h : p ∈ cacheSet c k v) : p ∈ c ∨ p = (k, v) := by
  induction c with
  | nil => simpa [cacheSet] using h
  | cons p0 rest ih =>
    obtain ⟨k0, v0⟩ := p0
    by_cases hk : k0 = k
    · simp [cacheSet, hk] at h
      rcases h with h | h
      · exact Or.inr h
      · exact Or.inl (List.mem_cons_of_mem _ h)
    · simp [cacheSet, hk] at h
      rcases h with h | h
      · exact Or.inl (by simp [h])
      · rcases ih h with h2 | h2
        · exact Or.inl (List.mem_cons_of_mem _ h2)
        · exact Or.inr h2

theorem handle_eq (env : Env) (cache : Cache) (m : Message) (g : String)
    (hg : m.guild = some g) (hb : m.authorBot = false) :
    handleMessage env cache m =
      ((((((joinBlock env m (parseArgs m.content) { cache := cache, trace := [] }).andThen
        (playBlock env m (parseArgs m.content))).andThen
        (skipBlock env g (parseArgs m.content))).andThen
        (stopBlock env g (parseArgs m.content))).andThen
        (queueBlock env g (parseArgs m.content))).andThen
        (leaveBlock env g (parseArgs m.content))).st := by
  simp [handleMessage, hg, hb]

/-- A handled `!join` message runs the `!join` block and nothing else. -/
theorem handle_join (env : Env) (cache : Cache) (m : Message) (g : String)
    (hg : m.guild = some g) (hb : m.authorBot = false)
    (h : (parseArgs m.content)[0]? = some "!join") :
    handleMessage env cache m =
      (joinBlock env m (parseArgs m.content) { cache := cache, trace := [] }).st := by
  rw [handle_eq env cache m g hg hb]
  cases joinBlock env m (parseArgs m.content) { cache := cache, trace := [] } with
  | ret s => rfl
  | next s =>
    rw [Ctl.andThen_next, playBlock_other _ _ _ _ (by simp [h]), Ctl.andThen_next,
      skipBlock_other _ _ _ _ (by simp [h]), Ctl.andThen_next,
      stopBlock_other _ _ _ _ (by simp [h]), Ctl.andThen_next,
      queueBlock_other _ _ _ _ (by simp [h]), Ctl.andThen_next,
      leaveBlock_other _ _ _ _ (by simp [h])]

/-- A handled `!skip` message runs the `!skip` block and nothing else. -/
theorem handle_skip (env : Env) (cache : Cache) (m : Message) (g : String)
    (hg : m.guild = some g) (hb : m.authorBot = false)
    (h : (parseArgs m.content)[0]? = some "!skip") :
    handleMessage env cache m =
      (skipBlock env g (parseArgs m.content) { cache := cache, trace := [] }).st := by
  rw [handle_eq env cache m g hg hb, joinBlock_other _ _ _ _ (by simp [h]), Ctl.andThen_next,
    playBlock_other _ _ _ _ (by simp [h]), Ctl.andThen_next]
  cases skipBlock env g (parseArgs m.content) { cache := cache, trace := [] } with
  | ret s => rfl
  | next s =>
    rw [Ctl.andThen_next, stopBlock_other _ _ _ _ (by simp [h]), Ctl.andThen_next,
      queueBlock_other _ _ _ _ (by simp [h]), Ctl.andThen_next,
      leaveBlock_other _ _ _ _ (by simp [h])]

/-- A handled `!queue` message runs the `!queue` block and nothing else. -/
theorem handle_queue (env : Env) (cache : Cache) (m : Message) (g : String)
    (hg : m.guild = some g) (hb : m.authorBot = false)
    (h : (parseArgs m.content)[0]? = some "!queue") :
    handleMessage env cache m =
      (queueBlock env g (parseArgs m.content) { cache := cache, trace := [] }).st := by
  rw [handle_eq env cache m g hg hb, joinBlock_other _ _ _ _ (by simp [h]), Ctl.andThen_next,
    playBlock_other _ _ _ _ (by simp [h]), Ctl.andThen_next,
    skipBlock_other _ _ _ _ (by simp [h]), Ctl.andThen_next,
    stopBlock_other _ _ _ _ (by simp [h]), Ctl.andThen_next]
  cases queueBlock env g (parseArgs m.content) { cache := cache, trace := [] } with
  | ret s => rfl
  | next s =>
    rw [Ctl.andThen_next, leaveBlock_other _ _ _ _ (by simp [h])]

theorem repliesOf_append (a b : List Event) :
    repliesOf (a ++ b) = repliesOf a ++ repliesOf b := by
  induction a with
  | nil => rfl
  | cons e rest ih => cases e <;> simp [repliesOf, ih]

/-- The events of `obtenerTituloDesdeSpotify` are HTTP requests only. -/
theorem obtener_events (env : Env) (url : String) :
    ∀ e ∈ (obtenerTituloDesdeSpotify env url).2, ∃ u, e = Event.axiosGet u := by
  intro e he
  unfold obtenerTituloDesdeSpotify at he
  split at he
  · simp at he
  · split at he <;> simp at he <;> exact ⟨_, he⟩

theorem lookupEvents_events (env : Env) (m : Message) :
    ∀ e ∈ lookupEvents env m, ∃ u, e = Event.axiosGet u := by
  intro e he
  unfold lookupEvents at he
  split at he
  · exact obtener_events env _ e he
  · simp at he

theorem repliesOf_requests (l : List Event) (h : ∀ e ∈ l, ∃ u, e = Event.axiosGet u) :
    repliesOf l = [] := by
  induction l with
  | nil => rfl
  | cons e rest ih =>
    obtain ⟨u, hu⟩ := h e (by simp)
    subst hu
    simp only [repliesOf]
    exact ih (fun e he => h e (List.mem_cons_of_mem _ he))

theorem startsWithChars_append (p a b : List Char) (h : startsWithChars p a = true) :
    startsWithChars p (a ++ b) = true := by
  induction p generalizing a with
  | nil => cases a <;> cases b <;> rfl
  | cons x xs ih =>
    cases a with
    | nil => simp [startsWithChars] at h
    | cons y ys =>
      simp only [startsWithChars, Bool.and_eq_true] at h
      simp only [List.cons_append, startsWithChars, Bool.and_eq_true]
      exact ⟨h.1, ih ys h.2⟩

theorem includesChars_append (sub a b : List Char) (h : includesChars sub a = true) :
    includesChars sub (a ++ b) = true := by
  induction a with
  | nil =>
    have hs : sub = [] := by
      cases sub with
      | nil => rfl
      | cons x xs => simp [includesChars, startsWithChars] at h
    subst hs
    cases b <;> simp [includesChars, startsWithChars]
  | cons y ys ih =>
    simp only [includesChars, Bool.or_eq_true] at h
    simp only [List.cons_append, includesChars, Bool.or_eq_true]
    rcases h with h | h
    · exact Or.inl (startsWithChars_append sub (y :: ys) b h)
    · exact Or.inr (ih h)

theorem msgCached_marker (title : Option String) :
    jsIncludes (msgCached title) "(caché)" = true := by
  unfold jsIncludes msgCached
  rw [String.data_append, String.data_append, List.append_assoc]
  exact includesChars_append _ _ _ (by decide)

/-! ## The `!play` command -/

theorem playCommand_sample (env : Env) :
    PlayCommand env (msgInVoice "!play x y") "c" "x y" := by
  unfold PlayCommand
  refine ⟨by decide, by decide, by decide, by decide, by decide, ?_⟩
  rw [if_neg (by decide)]
  decide

/-- C1. A handled `!play` command from a caller in a voice channel whose
query `q` (as it stands at the cache lookup) is not in the cache, whose
primary call of `distube.play` with `q` throws, and whose fallback search
resolves to a track with title `T` and a present, non-empty url `U`: after
the run the cache maps `q` to that track (it is the cache before with that
entry set) and `distube.play` has been called with `U`. -/
theorem play_fallback_stores_and_plays (env : Env) (cache : Cache) (m : Message)
    (ch q T U : String)
    (hcmd : PlayCommand env m ch q)
    (hmiss : cacheHas cache q = false)
    (hprimary : env.playOk 0 (some q) = false)
    (hfound : buscarConYtdlp env q = some { title := some T, url := some U })
    (hurl : U ≠ "") :
    cacheGet (handleMessage env cache m).cache q = some { title := some T, url := some U } ∧
    (handleMessage env cache m).cache = cacheSet cache q { title := some T, url := some U } ∧
    Event.play .fallback ch (some U) ∈ (handleMessage env cache m).trace := by
  rw [handle_playCommand env cache m ch q hcmd]
  have hres : (playResolved env ch q { cache := cache, trace := lookupEvents env m }).st.cache =
        cacheSet cache q { title := some T, url := some U } ∧
      Event.play .fallback ch (some U) ∈
        (playResolved env ch q { cache := cache, trace := lookupEvents env m }).st.trace := by
    simp only [playResolved, St.emit, hmiss, hprimary, playCatch, hfound, truthyOpt, truthy]
    have hne : (U != "") = true := by simpa using hurl
    simp only [hne, Bool.not_true, Bool.false_eq_true, if_false]
    split <;> simp [Ctl.st]
  exact ⟨by rw [hres.1]; exact cacheGet_cacheSet _ _ _, hres.1, hres.2⟩

theorem play_fallback_stores_and_plays_witness :
    PlayCommand envFallbackFinds (msgInVoice "!play x y") "c" "x y" ∧
    cacheGet (handleMessage envFallbackFinds [] (msgInVoice "!play x y")).cache "x y" =
      some { title := some "T", url := some "U" } ∧
    (handleMessage envFallbackFinds [] (msgInVoice "!play x y")).cache =
      cacheSet [] "x y" { title := some "T", url := some "U" } ∧
    Event.play .fallback "c" (some "U") ∈
      (handleMessage envFallbackFinds [] (msgInVoice "!play x y")).trace :=
  ⟨playCommand_sample _,
   play_fallback_stores_and_plays envFallbackFinds [] (msgInVoice "!play x y") "c" "x y" "T" "U"
     (playCommand_sample _) (by decide) (by decide) (by decide) (by decide)⟩

/-- C3. A handled `!play` command from a caller in a voice channel whose
query `q` is not in the cache, whose primary call of `distube.play` throws
and whose fallback search resolves to nothing or to a result without a url:
the only reply is the not-found message and the cache is the one before. -/
theorem play_both_fail_reports_not_found (env : Env) (cache : Cache) (m : Message)
    (ch q : String)
    (hcmd : PlayCommand env m ch q)
    (hmiss : cacheHas cache q = false)
    (hprimary : env.playOk 0 (some q) = false)
    (hnone : ∀ t, buscarConYtdlp env q = some t → truthyOpt t.url = false) :
    repliesOf (handleMessage env cache m).trace = [msgNotFound] ∧
    (handleMessage env cache m).cache = cache ∧
    (handleMessage env cache m).trace =
      lookupEvents env m ++
        [.cacheHas q, .play .primary ch (some q), .exec (ytdlpCommand q), .reply msgNotFound] := by
  rw [handle_playCommand env cache m ch q hcmd]
  have hres : (playResolved env ch q { cache := cache, trace := lookupEvents env m }).st =
      { cache := cache, trace := lookupEvents env m ++
        [.cacheHas q, .play .primary ch (some q), .exec (ytdlpCommand q), .reply msgNotFound] } := by
    simp only [playResolved, St.emit, hmiss, hprimary, playCatch]
    cases hb : buscarConYtdlp env q with
    | none => simp [Ctl.st]
    | some t => simp [Ctl.st, hnone t hb]
  rw [hres]
  refine ⟨?_, rfl, rfl⟩
  rw [repliesOf_append, repliesOf_requests _ (lookupEvents_events env m)]
  rfl

theorem play_both_fail_reports_not_found_witness :
    PlayCommand envAllFail (msgInVoice "!play x y") "c" "x y" ∧
    repliesOf (handleMessage envAllFail [] (msgInVoice "!play x y")).trace = [msgNotFound] ∧
    (handleMessage envAllFail [] (msgInVoice "!play x y")).cache = [] ∧
    (handleMessage envAllFail [] (msgInVoice "!play x y")).trace =
      lookupEvents envAllFail (msgInVoice "!play x y") ++
        [.cacheHas "x y", .play .primary "c" (some "x y"), .exec (ytdlpCommand "x y"),
         .reply msgNotFound] :=
  ⟨playCommand_sample _,
   play_both_fail_reports_not_found envAllFail [] (msgInVoice "!play x y") "c" "x y"
     (playCommand_sample _) (by decide) (by decide) (by decide)⟩

/-- C2, as stated, fails: with `x y` cached as `{title: "T", url: "U"}` and a
call of `distube.play` with `U` that throws, the handler goes on to the
fallback search, replaces the cache entry, calls `distube.play` with the
fresh result `U2`, and sends no reply with the cache marker. -/
theorem play_cached_counterexample :
    PlayCommand envCachedUrlThrows (msgInVoice "!play x y") "c" "x y" ∧
    cacheGet cacheOne "x y" = some { title := some "T", url := some "U" } ∧
    handleMessage envCachedUrlThrows cacheOne (msgInVoice "!play x y") =
      { cache := [("x y", { title := some "T2", url := some "U2" })],
        trace := [.cacheHas "x y", .cacheGet "x y", .play .cached "c" (some "U"),
                  .exec (ytdlpCommand "x y"),
                  .cacheSet "x y" { title := some "T2", url := some "U2" },
                  .play .fallback "c" (some "U2")] } ∧
    hasCachedReply
      (handleMessage envCachedUrlThrows cacheOne (msgInVoice "!play x y")).trace = false :=
  ⟨playCommand_sample _, by decide, by decide, by decide⟩

/-- C2, amended. A handled `!play` command from a caller in a voice channel
whose query `q` is in the cache with track `t`: the first thing the handler
does after the lookup is to call `distube.play` with the cached url; and when
that call resolves, this is the only call into the engine, no search is
started, the cache is unchanged, and the one reply is the cached-playback
message, which contains the marker `(caché)`. -/
theorem play_cached_plays_cached_url (env : Env) (cache : Cache) (m : Message)
    (ch q : String) (t : Track)
    (hcmd : PlayCommand env m ch q)
    (hhit : cacheGet cache q = some t) :
    (∃ rest, (handleMessage env cache m).trace =
      lookupEvents env m ++ [.cacheHas q, .cacheGet q, .play .cached ch t.url] ++ rest) ∧
    (env.playOk 0 t.url = true →
      handleMessage env cache m =
        { cache := cache,
          trace := lookupEvents env m ++
            [.cacheHas q, .cacheGet q, .play .cached ch t.url, .reply (msgCached t.title)] } ∧
      jsIncludes (msgCached t.title) "(caché)" = true) := by
  rw [handle_playCommand env cache m ch q hcmd]
  have hhas := cacheHas_of_cacheGet cache q t hhit
  constructor
  · simp only [playResolved, St.emit, hhas, hhit, if_true, playCatch]
    by_cases hok : env.playOk 0 t.url = true
    · simp [hok, Ctl.st]
    · simp only [hok, Bool.false_eq_true, if_false]
      cases buscarConYtdlp env q with
      | none => simp [Ctl.st]
      | some r =>
        by_cases hu : truthyOpt r.url = true
        · by_cases h1 : env.playOk 1 r.url = true <;> simp [hu, h1, Ctl.st]
        · simp [hu, Ctl.st]
  · intro hok
    refine ⟨?_, msgCached_marker _⟩
    simp [playResolved, St.emit, hhas, hhit, hok, Ctl.st]

theorem play_cached_plays_cached_url_witness :
    PlayCommand envAllOk (msgInVoice "!play x y") "c" "x y" ∧
    cacheGet cacheOne "x y" = some { title := some "T", url := some "U" } ∧
    envAllOk.playOk 0 (some "U") = true ∧
    handleMessage envAllOk cacheOne (msgInVoice "!play x y") =
      { cache := cacheOne,
        trace := lookupEvents envAllOk (msgInVoice "!play x y") ++
          [.cacheHas "x y", .cacheGet "x y", .play .cached "c" (some "U"),
           .reply (msgCached (some "T"))] } :=
  ⟨playCommand_sample _, by decide, by decide,
   ((play_cached_plays_cached_url envAllOk cacheOne (msgInVoice "!play x y") "c" "x y"
      { title := some "T", url := some "U" } (playCommand_sample _) (by decide)).2
      (by decide)).1⟩

/-- C4. A handled `!play` command from a caller in a voice channel whose
query contains `spotify.com` and whose metadata lookup fails (no `track/`
segment in the url, a failed request, or a response without a title): the
handler sends the metadata-failure reply and nothing else; it does not read
or write the cache, does not call `distube.play`, and starts no search. -/
theorem play_spotify_failure_stops (env : Env) (cache : Cache) (m : Message) (g ch : String)
    (hg : m.guild = some g) (hb : m.authorBot = false)
    (h0 : (parseArgs m.content)[0]? = some "!play")
    (hv : m.voiceChannel = some ch)
    (h1 : truthyOpt (parseArgs m.content)[1]? = true)
    (hs : jsIncludes (rawQuery (parseArgs m.content)) "spotify.com" = true)
    (hfail : SpotifyLookupFails env (rawQuery (parseArgs m.content))) :
    repliesOf (handleMessage env cache m).trace = [msgSpotifyFailed] ∧
    (handleMessage env cache m).cache = cache ∧
    (∀ e ∈ (handleMessage env cache m).trace,
      e.isCacheAccess = false ∧ e.isPlay = false ∧ e.isSearch = false ∧
      (e.isEngineCall = false)) := by
  have hres : handleMessage env cache m =
      { cache := cache,
        trace := (obtenerTituloDesdeSpotify env (rawQuery (parseArgs m.content))).2 ++
          [.reply msgSpotifyFailed] } := by
    rw [handle_play env cache m g hg hb h0]
    unfold SpotifyLookupFails at hfail
    unfold playBlock obtenerTituloDesdeSpotify
    simp only [h0, hv, h1, hs, if_true, Bool.not_true, Bool.false_eq_true, if_false]
    cases hid : spotifyTrackId (rawQuery (parseArgs m.content)) with
    | none => simp [Ctl.st, St.emit]
    | some trackId =>
      rw [hid] at hfail
      rcases hfail with hf | hf | hf <;> simp [hf, Ctl.st, St.emit, truthy]
  rw [hres]
  refine ⟨?_, rfl, ?_⟩
  · rw [repliesOf_append, repliesOf_requests _ (obtener_events env _)]
    rfl
  · intro e he
    rcases List.mem_append.mp he with he | he
    · obtain ⟨u, hu⟩ := obtener_events env _ e he
      subst hu
      exact ⟨rfl, rfl, rfl, rfl⟩
    · simp at he
      subst he
      exact ⟨rfl, rfl, rfl, rfl⟩

theorem play_spotify_failure_stops_witness :
    SpotifyLookupFails envAllFail
      (rawQuery (parseArgs (msgInVoice "!play https://open.spotify.com/track/7?si=1").content)) ∧
    repliesOf (handleMessage envAllFail cacheOne
      (msgInVoice "!play https://open.spotify.com/track/7?si=1")).trace = [msgSpotifyFailed] ∧
    (handleMessage envAllFail cacheOne
      (msgInVoice "!play https://open.spotify.com/track/7?si=1")).cache = cacheOne ∧
    (∀ e ∈ (handleMessage envAllFail cacheOne
        (msgInVoice "!play https://open.spotify.com/track/7?si=1")).trace,
      e.isCacheAccess = false ∧ e.isPlay = false ∧ e.isSearch = false ∧
      (e.isEngineCall = false)) :=
  have hf : SpotifyLookupFails envAllFail
      (rawQuery (parseArgs (msgInVoice "!play https://open.spotify.com/track/7?si=1").content)) := by
    have hid : spotifyTrackId
        (rawQuery (parseArgs (msgInVoice "!play https://open.spotify.com/track/7?si=1").content)) =
        some "7" := by decide
    unfold SpotifyLookupFails
    rw [hid]
    exact Or.inl rfl
  ⟨hf, play_spotify_failure_stops envAllFail cacheOne
    (msgInVoice "!play https://open.spotify.com/track/7?si=1") "g" "c"
    (by decide) (by decide) (by decide) (by decide) (by decide) (by decide) hf⟩

/-! ## Preconditions -/

/-- C5. A handled `!join` or `!play` message, with any arguments, from a
caller who is in no voice channel: the handler sends the voice-channel
precondition reply and does nothing else; in particular it makes no call into
the playback engine, and the cache is unchanged. -/
theorem voice_commands_need_voice_channel (env : Env) (cache : Cache) (m : Message)
    (g : String)
    (hg : m.guild = some g) (hb : m.authorBot = false)
    (hcmd : (parseArgs m.content)[0]? = some "!join" ∨
            (parseArgs m.content)[0]? = some "!play")
    (hv : m.voiceChannel = none) :
    handleMessage env cache m = { cache := cache, trace := [.reply msgNeedVoice] } ∧
    (∀ e ∈ (handleMessage env cache m).trace, e.isEngineCall = false) := by
  have hres : handleMessage env cache m =
      { cache := cache, trace := [.reply msgNeedVoice] } := by
    rcases hcmd with h | h
    · rw [handle_join env cache m g hg hb h]
      simp [joinBlock, h, hv, Ctl.st, St.emit]
    · rw [handle_play env cache m g hg hb h]
      simp [playBlock, h, hv, Ctl.st, St.emit]
  rw [hres]
  refine ⟨rfl, ?_⟩
  intro e he
  simp at he
  subst he
  rfl

theorem voice_commands_need_voice_channel_witness :
    handleMessage envAllOk cacheOne (msgNoVoice "!play x y") =
      { cache := cacheOne, trace := [.reply msgNeedVoice] } ∧
    (∀ e ∈ (handleMessage envAllOk cacheOne (msgNoVoice "!play x y")).trace,
      e.isEngineCall = false) :=
  voice_commands_need_voice_channel envAllOk cacheOne (msgNoVoice "!play x y") "g"
    (by decide) (by decide) (Or.inr (by decide)) (by decide)

/-! ## The `!skip` command -/

/-- C7. For a handled `!skip` message, `queue.skip()` is called if and only
if the guild has a queue with more than one song; when there is no queue or
the queue has at most one song, the handler sends the no-more-songs reply and
does not call `queue.skip()`. -/
theorem skip_called_iff_more_than_one_song (env : Env) (cache : Cache) (m : Message)
    (g : String)
    (hg : m.guild = some g) (hb : m.authorBot = false)
    (hcmd : (parseArgs m.content)[0]? = some "!skip") :
    (Event.queueSkip ∈ (handleMessage env cache m).trace ↔
      ∃ songs, env.getQueue g = some songs ∧ 1 < songs.length) ∧
    ((∀ songs, env.getQueue g = some songs → songs.length ≤ 1) →
      handleMessage env cache m =
        { cache := cache, trace := [.getQueue g, .reply msgNoMoreSongs] }) := by
  rw [handle_skip env cache m g hg hb hcmd]
  unfold skipBlock
  simp only [hcmd, if_true, St.emit, List.nil_append]
  cases hq : env.getQueue g with
  | none => simp [Ctl.st]
  | some songs =>
    by_cases hl : songs.length ≤ 1
    · simp [hl, Ctl.st]
    · simp only [hl, if_false, Ctl.st]
      constructor
      · simp
        omega
      · intro h
        exact absurd (h songs rfl) hl

theorem skip_called_iff_more_than_one_song_witness :
    (Event.queueSkip ∈ (handleMessage envOneSong [] (msgInVoice "!skip")).trace ↔
      ∃ songs, envOneSong.getQueue "g" = some songs ∧ 1 < songs.length) ∧
    ((∀ songs, envOneSong.getQueue "g" = some songs → songs.length ≤ 1) →
      handleMessage envOneSong [] (msgInVoice "!skip") =
        { cache := [], trace := [.getQueue "g", .reply msgNoMoreSongs] }) :=
  skip_called_iff_more_than_one_song envOneSong [] (msgInVoice "!skip") "g"
    (by decide) (by decide) (by decide)

/-! ## The fallback search -/

/-- C8, evaluated where it fails. The search tool finds the video titled
`A|B` at `https://youtu.be/x` and prints `A|B|https://youtu.be/x`;
`buscarConYtdlp` resolves to title `A` and url `B`, not to the title and url
that were printed. -/
theorem buscarConYtdlp_splits_title_at_bar :
    buscarConYtdlp envTitleWithBar "song" = some { title := some "A", url := some "B" } ∧
    buscarConYtdlp envTitleWithBar "song" ≠
      some { title := some "A|B", url := some "https://youtu.be/x" } ∧
    (envTitleWithBar.exec (ytdlpCommand "song")).stdout = "A|B" ++ "|" ++ "https://youtu.be/x" ++ "\n" ∧
    (envTitleWithBar.exec (ytdlpCommand "song")).err = false := by
  decide

/-! ## Splitting and joining on a one-character separator -/

theorem jsJoin_data (parts : List String) (sep : String) :
    (jsJoin parts sep).data = joinChars (parts.map String.data) sep.data := by
  induction parts with
  | nil => rfl
  | cons a rest ih =>
    cases rest with
    | nil => rfl
    | cons b rest2 =>
      simp only [jsJoin, String.data_append, List.map_cons, joinChars]
      rw [ih]
      simp

theorem splitGo_single_cons (c : Char) (cur : List Char) (x : Char) (xs : List Char) :
    splitGo [c] cur 0 (x :: xs) =
      if c = x then cur.reverse :: splitGo [c] [] 0 xs else splitGo [c] (x :: cur) 0 xs := by
  by_cases h : c = x
  · subst h
    cases xs <;> simp [splitGo, startsWithChars]
  · cases xs <;> simp [splitGo, startsWithChars, h]

/-- The first piece starts with what has been read so far. -/
theorem splitGo_single_head (c : Char) (s cur : List Char) :
    ∃ p rest, splitGo [c] cur 0 s = (cur.reverse ++ p) :: rest := by
  induction s generalizing cur with
  | nil => exact ⟨[], [], by simp [splitGo]⟩
  | cons x xs ih =>
    rw [splitGo_single_cons]
    by_cases h : c = x
    · exact ⟨[], splitGo [c] [] 0 xs, by simp [h]⟩
    · obtain ⟨p, rest, hp⟩ := ih (x :: cur)
      exact ⟨x :: p, rest, by simp [h, hp]⟩

/-- Joining the pieces of a split with the separator gives the text back. -/
theorem joinChars_splitGo (c : Char) (s cur : List Char) :
    joinChars (splitGo [c] cur 0 s) [c] = cur.reverse ++ s := by
  induction s generalizing cur with
  | nil => simp [splitGo, joinChars]
  | cons x xs ih =>
    rw [splitGo_single_cons]
    by_cases h : c = x
    · obtain ⟨p, rest, hp⟩ := splitGo_single_head c xs []
      have := ih []
      rw [hp] at this
      rw [if_pos h, hp]
      simp only [joinChars]
      rw [this, h]
      simp
    · simp only [h, if_false]
      rw [ih (x :: cur)]
      simp

/-- A text without the separator in front of a separator is the first piece. -/
theorem splitGo_append_sep (c : Char) (l r cur : List Char) (hl : c ∉ l) :
    splitGo [c] cur 0 (l ++ c :: r) = (cur.reverse ++ l) :: splitGo [c] [] 0 r := by
  induction l generalizing cur with
  | nil => simp [splitGo_single_cons]
  | cons x xs ih =>
    have hx : c ≠ x := fun h => hl (by simp [h])
    have hxs : c ∉ xs := fun h => hl (List.mem_cons_of_mem _ h)
    rw [List.cons_append, splitGo_single_cons, if_neg hx, ih (x :: cur) hxs]
    simp

/-- A text without the separator is one piece. -/
theorem splitGo_no_sep (c : Char) (l cur : List Char) (hl : c ∉ l) :
    splitGo [c] cur 0 l = [cur.reverse ++ l] := by
  induction l generalizing cur with
  | nil => simp [splitGo]
  | cons x xs ih =>
    have hx : c ≠ x := fun h => hl (by simp [h])
    have hxs : c ∉ xs := fun h => hl (List.mem_cons_of_mem _ h)
    rw [splitGo_single_cons, if_neg hx, ih (x :: cur) hxs]
    simp

/-- Splitting the join of pieces that are free of the separator gives the
pieces back. -/
theorem splitChars_joinChars (c : Char) (ls : List (List Char)) (hne : ls ≠ [])
    (hfree : ∀ l ∈ ls, c ∉ l) : splitChars [c] (joinChars ls [c]) = ls := by
  unfold splitChars
  induction ls with
  | nil => exact absurd rfl hne
  | cons a rest ih =>
    cases rest with
    | nil =>
      simp only [joinChars]
      rw [splitGo_no_sep c a [] (hfree a (by simp))]
      simp
    | cons b rest2 =>
      simp only [joinChars, List.append_assoc, List.singleton_append]
      rw [splitGo_append_sep c a _ [] (hfree a (by simp))]
      rw [ih (by simp) (fun l hl => hfree l (List.mem_cons_of_mem _ hl))]
      simp

theorem splitGo_pieces_free (c : Char) (s cur : List Char) (hcur : c ∉ cur) :
    ∀ l ∈ splitGo [c] cur 0 s, c ∉ l := by
  induction s generalizing cur with
  | nil =>
    intro l hl
    simp [splitGo] at hl
    subst hl
    simpa using hcur
  | cons x xs ih =>
    rw [splitGo_single_cons]
    by_cases h : c = x
    · rw [if_pos h]
      intro l hl
      rcases List.mem_cons.mp hl with hl | hl
      · subst hl
        simpa using hcur
      · exact ih [] (by simp) l hl
    · rw [if_neg h]
      exact ih (x :: cur) (by simp [h, hcur])

theorem map_mk_map_data (ls : List String) : (ls.map String.data).map String.mk = ls := by
  induction ls with
  | nil => rfl
  | cons a rest ih => simp [ih]

theorem map_data_map_mk (ls : List (List Char)) : (ls.map String.mk).map String.data = ls := by
  induction ls with
  | nil => rfl
  | cons a rest ih => simp [ih]

/-- Joining the pieces of `split(' ')` with a space gives the text back. -/
theorem join_parseArgs (content : String) : jsJoin (parseArgs content) " " = content := by
  apply String.ext
  rw [jsJoin_data]
  unfold parseArgs jsSplit splitChars
  rw [map_data_map_mk]
  exact joinChars_splitGo ' ' content.data []

/-! ## The argument split -/

/-- C9, as stated, fails: a tab between `!play` and the query leaves the text
in one piece, which is no command, so the handler does nothing, whereas with
one space it plays the query; and with two spaces the second piece is empty,
so the handler asks for a song. -/
theorem whitespace_split_counterexample :
    parseArgs "!play\tsong" = ["!play\tsong"] ∧
    handleMessage envAllOk [] (msgInVoice "!play\tsong") = { cache := [], trace := [] } ∧
    handleMessage envAllOk [] (msgInVoice "!play song") =
      { cache := [], trace := [.cacheHas "song", .play .primary "c" (some "song")] } ∧
    parseArgs "!play  song" = ["!play", "", "song"] ∧
    handleMessage envAllOk [] (msgInVoice "!play  song") =
      { cache := [], trace := [.reply msgNeedQuery] } := by
  decide

/-- C9, amended. The argument list is the text cut at every single space:
the pieces contain no space and joined with spaces they give the text back.
A command word `cmd` without a space, followed by exactly one space and a
text `q`, is split into `cmd` and the pieces of `q`; the query of `!play` is
then `q` itself, and when `q` is not empty and does not begin with a space
the argument check of line 60 passes, so that such a `!play` message from a
caller in a voice channel reaches the cache lookup with the query `q`. -/
theorem args_split_at_single_spaces (cmd q : String) (hcmd : ' ' ∉ cmd.data) :
    (∀ content, jsJoin (parseArgs content) " " = content ∧
      ∀ a ∈ parseArgs content, ' ' ∉ a.data) ∧
    parseArgs (cmd ++ " " ++ q) = cmd :: parseArgs q ∧
    (parseArgs (cmd ++ " " ++ q))[0]? = some cmd ∧
    rawQuery (parseArgs (cmd ++ " " ++ q)) = q ∧
    (∀ x xs, q.data = x :: xs → x ≠ ' ' →
      truthyOpt (parseArgs (cmd ++ " " ++ q))[1]? = true ∧
      ∀ (env : Env) (m : Message) (ch : String),
        m.guild.isSome = true → m.authorBot = false → m.voiceChannel = some ch →
        m.content = cmd ++ " " ++ q → cmd = "!play" → jsIncludes q "spotify.com" = false →
        PlayCommand env m ch q) := by
  have hsplit : parseArgs (cmd ++ " " ++ q) = cmd :: parseArgs q := by
    unfold parseArgs jsSplit splitChars
    have hd : (cmd ++ " " ++ q).data = cmd.data ++ ' ' :: q.data := by
      simp [String.data_append]
    have hsp : (" " : String).data = [' '] := rfl
    rw [hd, hsp, splitGo_append_sep ' ' cmd.data q.data [] hcmd]
    simp
  refine ⟨fun content => ⟨join_parseArgs content, ?_⟩, hsplit, by rw [hsplit]; simp, ?_, ?_⟩
  · intro a ha
    unfold parseArgs jsSplit splitChars at ha
    obtain ⟨l, hl, rfl⟩ := List.mem_map.mp ha
    exact splitGo_pieces_free ' ' content.data [] (by simp) l hl
  · rw [hsplit]
    exact join_parseArgs q
  · intro x xs hq hx
    rw [hsplit]
    unfold parseArgs jsSplit splitChars
    have hsp : (" " : String).data = [' '] := rfl
    rw [hq, hsp, splitGo_single_cons, if_neg (fun h => hx h.symm)]
    obtain ⟨p, rest, hp⟩ := splitGo_single_head ' ' xs [x]
    rw [hp]
    simp only [List.map_cons, List.getElem?_cons_succ, List.getElem?_cons_zero, truthyOpt, truthy]
    have hne : String.mk ([x].reverse ++ p) ≠ "" := by
      intro h
      have := congrArg String.data h
      simp at this
    have htruthy : (String.mk ([x].reverse ++ p) != "") = true := by simpa using hne
    refine ⟨htruthy, ?_⟩
    intro env m ch hg hb hv hcontent hplay hnospotify
    have hq0 : rawQuery (parseArgs m.content) = q := by
      rw [hcontent, hsplit]
      exact join_parseArgs q
    have h1 : (parseArgs m.content)[1]? = some (String.mk ([x].reverse ++ p)) := by
      rw [hcontent, hsplit]
      unfold parseArgs jsSplit splitChars
      rw [hq, hsp, splitGo_single_cons, if_neg (fun h => hx h.symm), hp]
      simp
    refine ⟨hg, hb, ?_, hv, ?_, ?_⟩
    · rw [hcontent, hsplit, hplay]
      simp
    · rw [h1]
      simpa [truthyOpt, truthy] using hne
    · rw [hq0, hnospotify]
      simp

theorem args_split_at_single_spaces_witness :
    ' ' ∉ ("!play" : String).data ∧
    parseArgs ("!play" ++ " " ++ "la  vie en rose") = "!play" :: parseArgs "la  vie en rose" ∧
    rawQuery (parseArgs ("!play" ++ " " ++ "la  vie en rose")) = "la  vie en rose" :=
  ⟨by decide,
   (args_split_at_single_spaces "!play" "la  vie en rose" (by decide)).2.1,
   (args_split_at_single_spaces "!play" "la  vie en rose" (by decide)).2.2.2.1⟩

/-! ## The `!queue` command -/

theorem jsMapIdxFrom_length {α β : Type} (f : α → Nat → β) (k : Nat) (xs : List α) :
    (jsMapIdxFrom f k xs).length = xs.length := by
  induction xs generalizing k with
  | nil => rfl
  | cons x rest ih => simp [jsMapIdxFrom, ih]

theorem jsMapIdxFrom_getElem? {α β : Type} (f : α → Nat → β) (k : Nat) (xs : List α)
    (i : Nat) (h : i < xs.length) :
    (jsMapIdxFrom f k xs)[i]? = some (f xs[i] (k + i)) := by
  induction xs generalizing k i with
  | nil => simp at h
  | cons x rest ih =>
    cases i with
    | zero => simp [jsMapIdxFrom]
    | succ j =>
      simp only [jsMapIdxFrom, List.getElem?_cons_succ, List.getElem_cons_succ]
      rw [ih (k + 1) j (by simpa using h)]
      congr 2
      omega

theorem jsMapIdxFrom_mem {α β : Type} (f : α → Nat → β) (k : Nat) (xs : List α) (b : β)
    (h : b ∈ jsMapIdxFrom f k xs) : ∃ x ∈ xs, ∃ i, b = f x i := by
  induction xs generalizing k with
  | nil => simp [jsMapIdxFrom] at h
  | cons x rest ih =>
    simp only [jsMapIdxFrom, List.mem_cons] at h
    rcases h with h | h
    · exact ⟨x, by simp, k, h⟩
    · obtain ⟨y, hy, i, hi⟩ := ih (k + 1) h
      exact ⟨y, List.mem_cons_of_mem _ hy, i, hi⟩

theorem digitChar_ne_newline (k : Nat) (hk : k < 10) : Nat.digitChar k ≠ '\n' := by
  interval_cases k <;> decide

theorem toDigitsCore_no_newline (f n : Nat) (ds : List Char) (h : '\n' ∉ ds) :
    '\n' ∉ Nat.toDigitsCore 10 f n ds := by
  induction f generalizing n ds with
  | zero => simpa [Nat.toDigitsCore] using h
  | succ f ih =>
    have hd : '\n' ∉ Nat.digitChar (n % 10) :: ds := by
      intro hmem
      rcases List.mem_cons.mp hmem with h1 | h1
      · exact digitChar_ne_newline (n % 10) (Nat.mod_lt _ (by decide)) h1.symm
      · exact h h1
    simp only [Nat.toDigitsCore]
    split
    · exact hd
    · exact ih _ _ hd

/-- The decimal rendering of a number has no line break. -/
theorem toString_nat_no_newline (n : Nat) : '\n' ∉ (toString n).data := by
  show '\n' ∉ (Nat.repr n).data
  unfold Nat.repr Nat.toDigits
  exact toDigitsCore_no_newline _ _ _ (by simp)

theorem queueLine_no_newline (song : Song) (id : Nat)
    (hn : '\n' ∉ song.name.data) (hd : '\n' ∉ song.formattedDuration.data) :
    '\n' ∉ (queueLine song id).data := by
  unfold queueLine
  simp only [String.data_append, List.mem_append, not_or]
  exact ⟨⟨⟨⟨⟨⟨by decide, toString_nat_no_newline _⟩, by decide⟩, hn⟩, by decide⟩, hd⟩, by decide⟩

/-- Splitting at line breaks the join of lines that have no line break gives
the lines back. -/
theorem jsSplit_jsJoin_lines (lines : List String) (hne : lines ≠ [])
    (hfree : ∀ l ∈ lines, '\n' ∉ l.data) :
    jsSplit (jsJoin lines "\n") "\n" = lines := by
  unfold jsSplit
  rw [jsJoin_data]
  have hnl : ("\n" : String).data = ['\n'] := rfl
  rw [hnl, splitChars_joinChars '\n' (lines.map String.data) (by simpa using hne)]
  · exact map_mk_map_data lines
  · intro l hl
    obtain ⟨a, ha, rfl⟩ := List.mem_map.mp hl
    exact hfree a ha

/-- C6. A handled `!queue` message for a guild whose queue holds the songs
`songs`: the reply is the header line followed by `songs.length` lines joined
by line breaks, and line `i` (counting from 0) is the number `i + 1`, the name
and the formatted duration of the `i`-th song, in the order of the queue. When
the queue is not empty and no name or duration contains a line break,
splitting that text at line breaks gives exactly those lines. -/
theorem queue_reply_lists_songs (env : Env) (cache : Cache) (m : Message) (g : String)
    (songs : List Song)
    (hg : m.guild = some g) (hb : m.authorBot = false)
    (hcmd : (parseArgs m.content)[0]? = some "!queue")
    (hq : env.getQueue g = some songs) :
    ∃ lines : List String,
      handleMessage env cache m =
        { cache := cache,
          trace := [.getQueue g, .reply (msgQueueHeader ++ jsJoin lines "\n")] } ∧
      lines.length = songs.length ∧
      (∀ i (h : i < songs.length), lines[i]? =
        some ("**" ++ toString (i + 1) ++ "**. " ++ songs[i].name ++ " `[" ++
          songs[i].formattedDuration ++ "]`")) ∧
      (songs ≠ [] →
        (∀ s ∈ songs, '\n' ∉ s.name.data ∧ '\n' ∉ s.formattedDuration.data) →
        jsSplit (jsJoin lines "\n") "\n" = lines) := by
  refine ⟨jsMapIdx queueLine songs, ?_, jsMapIdxFrom_length _ _ _, ?_, ?_⟩
  · rw [handle_queue env cache m g hg hb hcmd]
    simp [queueBlock, hcmd, hq, Ctl.st, St.emit, queueText]
  · intro i h
    unfold jsMapIdx
    rw [jsMapIdxFrom_getElem? queueLine 0 songs i h]
    simp [queueLine]
  · intro hne hfree
    apply jsSplit_jsJoin_lines
    · intro hnil
      have := jsMapIdxFrom_length queueLine 0 songs
      unfold jsMapIdx at hnil
      rw [hnil] at this
      exact hne (List.length_eq_zero.mp this.symm)
    · intro l hl
      obtain ⟨x, hx, i, rfl⟩ := jsMapIdxFrom_mem queueLine 0 songs l hl
      exact queueLine_no_newline x i (hfree x hx).1 (hfree x hx).2

theorem queue_reply_lists_songs_witness :
    ∃ lines : List String,
      handleMessage envAllOk [] (msgInVoice "!queue") =
        { cache := [],
          trace := [.getQueue "g", .reply (msgQueueHeader ++ jsJoin lines "\n")] } ∧
      lines.length = 2 ∧
      (∀ i (h : i < 2), lines[i]? =
        some ("**" ++ toString (i + 1) ++ "**. " ++
          ([{ name := "a", formattedDuration := "1:00" },
            { name := "b", formattedDuration := "2:00" }] : List Song)[i].name ++ " `[" ++
          ([{ name := "a", formattedDuration := "1:00" },
            { name := "b", formattedDuration := "2:00" }] : List Song)[i].formattedDuration ++
          "]`")) ∧
      (([{ name := "a", formattedDuration := "1:00" },
         { name := "b", formattedDuration := "2:00" }] : List Song) ≠ [] →
        (∀ s ∈ ([{ name := "a", formattedDuration := "1:00" },
                 { name := "b", formattedDuration := "2:00" }] : List Song),
          '\n' ∉ s.name.data ∧ '\n' ∉ s.formattedDuration.data) →
        jsSplit (jsJoin lines "\n") "\n" = lines) :=
  queue_reply_lists_songs envAllOk [] (msgInVoice "!queue") "g"
    [{ name := "a", formattedDuration := "1:00" }, { name := "b", formattedDuration := "2:00" }]
    (by decide) (by decide) (by decide) (by decide)

/-! ## The cache invariant -/

theorem andThen_inert (c : Ctl) (k : St → Ctl) (hk : Inert k) :
    (c.andThen k).st.cache = c.st.cache ∧
    (NoCachedPlay c.st.trace → NoCachedPlay (c.andThen k).st.trace) := by
  cases c with
  | ret s => exact ⟨rfl, fun h => h⟩
  | next s => exact hk s

theorem noCachedPlay_append (l : List Event) (e : Event) (h : NoCachedPlay l)
    (he : ∀ ch a, e ≠ Event.play .cached ch a) : NoCachedPlay (l ++ [e]) := by
  intro ch a hmem
  rcases List.mem_append.mp hmem with h1 | h1
  · exact h ch a h1
  · simp at h1
    exact he ch a h1.symm

theorem joinBlock_inert (env : Env) (m : Message) (args : List String) :
    Inert (joinBlock env m args) := by
  intro s
  unfold joinBlock
  split
  · split
    · exact ⟨rfl, fun h => noCachedPlay_append _ _ h (by simp)⟩
    · split
      · exact ⟨rfl, fun h => noCachedPlay_append _ _ (noCachedPlay_append _ _ h (by simp)) (by simp)⟩
      · exact ⟨rfl, fun h => noCachedPlay_append _ _ (noCachedPlay_append _ _ h (by simp)) (by simp)⟩
  · exact ⟨rfl, fun h => h⟩

theorem skipBlock_inert (env : Env) (g : String) (args : List String) :
    Inert (skipBlock env g args) := by
  intro s
  unfold skipBlock
  split
  · split
    · exact ⟨rfl, fun h => noCachedPlay_append _ _ (noCachedPlay_append _ _ h (by simp)) (by simp)⟩
    · split
      · exact ⟨rfl, fun h => noCachedPlay_append _ _ (noCachedPlay_append _ _ h (by simp)) (by simp)⟩
      · exact ⟨rfl, fun h => noCachedPlay_append _ _ (noCachedPlay_append _ _
          (noCachedPlay_append _ _ h (by simp)) (by simp)) (by simp)⟩
  · exact ⟨rfl, fun h => h⟩

theorem stopBlock_inert (env : Env) (g : String) (args : List String) :
    Inert (stopBlock env g args) := by
  intro s
  unfold stopBlock
  split
  · split
    · exact ⟨rfl, fun h => noCachedPlay_append _ _ (noCachedPlay_append _ _ h (by simp)) (by simp)⟩
    · exact ⟨rfl, fun h => noCachedPlay_append _ _ (noCachedPlay_append _ _
        (noCachedPlay_append _ _ h (by simp)) (by simp)) (by simp)⟩
  · exact ⟨rfl, fun h => h⟩

theorem queueBlock_inert (env : Env) (g : String) (args : List String) :
    Inert (queueBlock env g args) := by
  intro s
  unfold queueBlock
  split
  · split
    · exact ⟨rfl, fun h => noCachedPlay_append _ _ (noCachedPlay_append _ _ h (by simp)) (by simp)⟩
    · exact ⟨rfl, fun h => noCachedPlay_append _ _ (noCachedPlay_append _ _ h (by simp)) (by simp)⟩
  · exact ⟨rfl, fun h => h⟩

theorem leaveBlock_inert (env : Env) (g : String) (args : List String) :
    Inert (leaveBlock env g args) := by
  intro s
  unfold leaveBlock
  split
  · split
    · exact ⟨rfl, fun h => noCachedPlay_append _ _ (noCachedPlay_append _ _ h (by simp)) (by simp)⟩
    · exact ⟨rfl, fun h => noCachedPlay_append _ _ (noCachedPlay_append _ _
        (noCachedPlay_append _ _ h (by simp)) (by simp)) (by simp)⟩
  · exact ⟨rfl, fun h => h⟩

/-- A handled message that is not `!play` leaves the cache alone and plays
nothing from the cache. -/
theorem handle_not_play (env : Env) (cache : Cache) (m : Message)
    (h : (parseArgs m.content)[0]? ≠ some "!play") :
    (handleMessage env cache m).cache = cache ∧
    NoCachedPlay (handleMessage env cache m).trace := by
  have hnil : NoCachedPlay ([] : List Event) := fun ch a hmem => by simp at hmem
  cases hg : m.guild with
  | none => simpa [handleMessage, hg] using hnil
  | some g =>
    cases hb : m.authorBot with
    | true => simpa [handleMessage, hg, hb] using hnil
    | false =>
      rw [handle_eq env cache m g hg hb]
      have h1 := joinBlock_inert env m (parseArgs m.content) { cache := cache, trace := [] }
      generalize joinBlock env m (parseArgs m.content) { cache := cache, trace := [] } = c1 at h1 ⊢
      have h2 : (c1.andThen (playBlock env m (parseArgs m.content))).st = c1.st := by
        cases c1 with
        | ret s => rfl
        | next s => rw [Ctl.andThen_next, playBlock_other _ _ _ _ h]
      generalize c1.andThen (playBlock env m (parseArgs m.content)) = c2 at h2 ⊢
      have h3 := andThen_inert c2 _ (skipBlock_inert env g (parseArgs m.content))
      generalize c2.andThen (skipBlock env g (parseArgs m.content)) = c3 at h3 ⊢
      have h4 := andThen_inert c3 _ (stopBlock_inert env g (parseArgs m.content))
      generalize c3.andThen (stopBlock env g (parseArgs m.content)) = c4 at h4 ⊢
      have h5 := andThen_inert c4 _ (queueBlock_inert env g (parseArgs m.content))
      generalize c4.andThen (queueBlock env g (parseArgs m.content)) = c5 at h5 ⊢
      have h6 := andThen_inert c5 _ (leaveBlock_inert env g (parseArgs m.content))
      generalize c5.andThen (leaveBlock env g (parseArgs m.content)) = c6 at h6 ⊢
      rw [h2] at h3
      refine ⟨?_, ?_⟩
      · rw [h6.1, h5.1, h4.1, h3.1, h1.1]
      · exact h6.2 (h5.2 (h4.2 (h3.2 (h1.2 hnil))))

theorem playCatch_effect (env : Env) (ch q : String) (s : St) :
    ((playCatch env ch q s).st.cache = s.cache ∨
      ∃ t, (playCatch env ch q s).st.cache = cacheSet s.cache q t ∧
        buscarConYtdlp env q = some t ∧ truthyOpt t.url = true ∧
        Event.exec (ytdlpCommand q) ∈ (playCatch env ch q s).st.trace ∧
        Event.cacheSet q t ∈ (playCatch env ch q s).st.trace) ∧
    (∀ c a, Event.play .cached c a ∈ (playCatch env ch q s).st.trace →
      Event.play .cached c a ∈ s.trace) := by
  unfold playCatch
  cases hb : buscarConYtdlp env q with
  | none => simp [Ctl.st, St.emit]
  | some t =>
    by_cases hu : truthyOpt t.url = true
    · by_cases h1 : env.playOk 1 t.url = true
      · simp only [Ctl.st, St.emit, hu, h1, Bool.not_true, Bool.false_eq_true, if_false, if_true]
        exact ⟨Or.inr ⟨t, rfl, rfl, hu, by simp, by simp⟩, by simp⟩
      · simp only [Ctl.st, St.emit, hu, h1, Bool.not_true, Bool.false_eq_true, if_false]
        exact ⟨Or.inr ⟨t, rfl, rfl, hu, by simp, by simp⟩, by simp⟩
    · simp [Ctl.st, St.emit, hu]

theorem playResolved_effect (env : Env) (ch q : String) (s : St) :
    ((playResolved env ch q s).st.cache = s.cache ∨
      ∃ t, (playResolved env ch q s).st.cache = cacheSet s.cache q t ∧
        buscarConYtdlp env q = some t ∧ truthyOpt t.url = true ∧
        Event.exec (ytdlpCommand q) ∈ (playResolved env ch q s).st.trace ∧
        Event.cacheSet q t ∈ (playResolved env ch q s).st.trace) ∧
    (∀ c a, Event.play .cached c a ∈ (playResolved env ch q s).st.trace →
      Event.play .cached c a ∈ s.trace ∨ ∃ t, cacheGet s.cache q = some t ∧ a = t.url) := by
  unfold playResolved
  by_cases hhas : cacheHas s.cache q = true
  · obtain ⟨t, ht⟩ := cacheGet_of_cacheHas s.cache q hhas
    by_cases hok : env.playOk 0 t.url = true
    · simp only [St.emit, hhas, ht, hok, Ctl.st, if_true]
      refine ⟨Or.inl trivial, ?_⟩
      intro c a hmem
      simp at hmem
      rcases hmem with h | ⟨-, h⟩
      · exact Or.inl h
      · exact Or.inr ⟨t, rfl, h⟩
    · have hc := playCatch_effect env ch q
        { cache := s.cache,
          trace := s.trace ++ [.cacheHas q] ++ [.cacheGet q] ++ [.play .cached ch t.url] }
      simp only [St.emit, hhas, ht, hok, if_true, Bool.false_eq_true, if_false]
      refine ⟨hc.1, ?_⟩
      intro c a hmem
      have := hc.2 c a hmem
      simp at this
      rcases this with h | ⟨-, h⟩
      · exact Or.inl h
      · exact Or.inr ⟨t, rfl, h⟩
  · by_cases hok : env.playOk 0 (some q) = true
    · simp only [St.emit, hhas, hok, Ctl.st, if_true, Bool.false_eq_true, if_false]
      refine ⟨Or.inl trivial, ?_⟩
      intro c a hmem
      simp at hmem
      exact Or.inl hmem
    · have hc := playCatch_effect env ch q
        { cache := s.cache, trace := s.trace ++ [.cacheHas q] ++ [.play .primary ch (some q)] }
      simp only [St.emit, hhas, hok, Bool.false_eq_true, if_false]
      refine ⟨hc.1, ?_⟩
      intro c a hmem
      have := hc.2 c a hmem
      simp at this
      exact Or.inl this

theorem handle_effect (env : Env) (cache : Cache) (m : Message) :
    ((handleMessage env cache m).cache = cache ∨ StoredByFallback env cache m) ∧
    (∀ c a, Event.play .cached c a ∈ (handleMessage env cache m).trace →
      ∃ q t, cacheGet cache q = some t ∧ a = t.url) := by
  by_cases h : (parseArgs m.content)[0]? = some "!play"
  · cases hg : m.guild with
    | none => simp [handleMessage, hg]
    | some g =>
      cases hb : m.authorBot with
      | true => simp [handleMessage, hg, hb]
      | false =>
        unfold StoredByFallback
        rw [handle_play env cache m g hg hb h]
        unfold playBlock
        simp only [h, if_true, true_and]
        cases hv : m.voiceChannel with
        | none => simp [Ctl.st, St.emit]
        | some ch =>
          by_cases h1 : truthyOpt (parseArgs m.content)[1]? = true
          · simp only [h1, Bool.not_true, Bool.false_eq_true, if_false]
            have key : ∀ (q : String) (reqs : List Event),
                (∀ e ∈ reqs, ∃ u, e = Event.axiosGet u) →
                ((playResolved env ch q { cache := cache, trace := reqs }).st.cache = cache ∨
                  ∃ k t, (playResolved env ch q { cache := cache, trace := reqs }).st.cache =
                      cacheSet cache k t ∧
                    buscarConYtdlp env k = some t ∧ truthyOpt t.url = true ∧
                    Event.exec (ytdlpCommand k) ∈
                      (playResolved env ch q { cache := cache, trace := reqs }).st.trace ∧
                    Event.cacheSet k t ∈
                      (playResolved env ch q { cache := cache, trace := reqs }).st.trace) ∧
                (∀ c a, Event.play .cached c a ∈
                    (playResolved env ch q { cache := cache, trace := reqs }).st.trace →
                  ∃ q t, cacheGet cache q = some t ∧ a = t.url) := by
              intro q reqs hreqs
              have hp := playResolved_effect env ch q { cache := cache, trace := reqs }
              refine ⟨?_, ?_⟩
              · rcases hp.1 with h2 | ⟨t, h2⟩
                · exact Or.inl h2
                · exact Or.inr ⟨q, t, h2⟩
              · intro c a hmem
                rcases hp.2 c a hmem with h2 | ⟨t, h2⟩
                · obtain ⟨u, hu⟩ := hreqs _ h2
                  exact absurd hu (by simp)
                · exact ⟨q, t, h2⟩
            by_cases hs : jsIncludes (rawQuery (parseArgs m.content)) "spotify.com" = true
            · simp only [hs, if_true]
              have hreqs := obtener_events env (rawQuery (parseArgs m.content))
              generalize obtenerTituloDesdeSpotify env (rawQuery (parseArgs m.content)) = r
                at hreqs ⊢
              obtain ⟨r1, r2⟩ := r
              cases r1 with
              | none =>
                simp only [Ctl.st, St.emit, List.nil_append, true_or, true_and]
                intro c a hmem
                simp at hmem
                obtain ⟨u, hu⟩ := hreqs _ hmem
                exact absurd hu (by simp)
              | some title =>
                by_cases ht : truthy title = true
                · simp only [ht, Bool.not_true, Bool.false_eq_true, if_false, List.nil_append]
                  exact key title r2 hreqs
                · simp only [ht, Bool.not_false, Bool.not_eq_true] at ht ⊢
                  simp only [ht, Bool.not_false, if_true, Ctl.st, St.emit, List.nil_append,
                    true_or, true_and]
                  intro c a hmem
                  simp at hmem
                  obtain ⟨u, hu⟩ := hreqs _ hmem
                  exact absurd hu (by simp)
            · simp only [hs, Bool.false_eq_true, if_false]
              exact key _ [] (by simp)
          · simp [h1, Ctl.st, St.emit]
  · have hn := handle_not_play env cache m h
    exact ⟨Or.inl hn.1, fun c a hmem => absurd hmem (hn.2 c a)⟩

theorem cacheWf_cacheSet (c : Cache) (q : String) (t : Track) (hc : CacheWf c)
    (ht : truthyOpt t.url = true) : CacheWf (cacheSet c q t) := by
  intro k v hmem
  rcases mem_cacheSet c q t (k, v) hmem with h | h
  · exact hc k v h
  · have hv : v = t := (Prod.mk.inj h).2
    subst hv
    cases hu : v.url with
    | none => simp [hu, truthyOpt] at ht
    | some u =>
      refine ⟨u, rfl, ?_⟩
      simpa [hu, truthyOpt, truthy] using ht

/-- One run of the handler keeps the invariant of the cache, and a call of
`distube.play` from the cache branch has a url that is present and not
empty when the cache before the run satisfies the invariant. -/
theorem handle_keeps_invariant (env : Env) (cache : Cache) (m : Message)
    (hc : CacheWf cache) :
    CacheWf (handleMessage env cache m).cache ∧
    (∀ c a, Event.play .cached c a ∈ (handleMessage env cache m).trace →
      ∃ u, a = some u ∧ u ≠ "") := by
  have he := handle_effect env cache m
  refine ⟨?_, ?_⟩
  · rcases he.1 with h | ⟨-, q, t, h, -, ht, -, -⟩
    · rw [h]; exact hc
    · rw [h]; exact cacheWf_cacheSet cache q t hc ht
  · intro c a hmem
    obtain ⟨q, t, hget, ha⟩ := he.2 c a hmem
    obtain ⟨u, hu, hne⟩ := hc q t (mem_of_cacheGet cache q t hget)
    exact ⟨u, by rw [ha, hu], hne⟩

theorem run_keeps_invariant (steps : List (Env × Message)) (s : St)
    (hc : CacheWf s.cache)
    (ht : ∀ c a, Event.play .cached c a ∈ s.trace → ∃ u, a = some u ∧ u ≠ "") :
    CacheWf (runMessages steps s).cache ∧
    (∀ c a, Event.play .cached c a ∈ (runMessages steps s).trace →
      ∃ u, a = some u ∧ u ≠ "") := by
  induction steps generalizing s with
  | nil => exact ⟨hc, ht⟩
  | cons p rest ih =>
    obtain ⟨env, m⟩ := p
    have hk := handle_keeps_invariant env s.cache m hc
    simp only [runMessages]
    apply ih
    · exact hk.1
    · intro c a hmem
      rcases List.mem_append.mp hmem with h | h
      · exact ht c a h
      · exact hk.2 c a h

/-- C10. Over every sequence of handled messages, each in its own
environment, starting from the empty cache: every entry of the cache has a
url that is present and not empty; every call of `distube.play` made from the
cache branch has such a url as its argument; and a run of the handler either
leaves the cache as it was or is a `!play` command whose fallback search
resolved to a track with a url, stored by line 100 under the query. -/
theorem cache_entries_have_url (steps : List (Env × Message)) :
    CacheWf (runMessages steps { cache := [], trace := [] }).cache ∧
    (∀ c a, Event.play .cached c a ∈ (runMessages steps { cache := [], trace := [] }).trace →
      ∃ u, a = some u ∧ u ≠ "") ∧
    (∀ env cache m,
      (handleMessage env cache m).cache = cache ∨ StoredByFallback env cache m) := by
  have hrun := run_keeps_invariant steps { cache := [], trace := [] }
    (fun k t hmem => by simp at hmem) (fun c a hmem => by simp at hmem)
  exact ⟨hrun.1, hrun.2, fun env cache m => (handle_effect env cache m).1⟩

end Bot
